import Mathlib

/-!
Verification development for the LLM inference gateway repository.

The repository ships a Next.js frontend (Playground chat client, key-management
Console), shell test scripts, and documentation for an OpenAI-wire-compatible
FastAPI gateway.  The gateway's Python sources (rate limiter, key store,
request handler, stream proxy, usage recorder) are not part of the checked-in
tree, so those components are modelled from the specification; the frontend
components (Playground SSE client, Console fallback logic) are embedded
directly from their TypeScript sources.

All timestamps are in whole seconds (`Nat`); text is `List Char` where the
incremental SSE parsing matters and `String` elsewhere.
-/

namespace Gateway

/-! ## Rate limiter (modelled from the spec, §4.2) -/

/-- Modelled from the spec: per-key rate window — `window_start` (timestamp,
seconds) and `count` (requests admitted in the current window).  The gateway
source file holding this state (`gateway/main.py`) is absent from the tree. -/
structure RateWindow where
  window_start : Nat
  count : Nat
deriving DecidableEq, Repr

/-- Modelled from the spec: result of the admission check —
`Admitted | Denied(retry_after_seconds)`. -/
inductive AdmitResult where
  | Admitted : AdmitResult
  | Denied (retry_after : Nat) : AdmitResult
deriving DecidableEq, Repr

/-- Modelled from the spec (§4.2): read-or-create the key's window; if
`now − window_start ≥ 60s`, reset the window (`count = 1`,
`window_start = now`) and admit; else if `count ≥ limit`, deny with
`retry_after = 60 − (now − window_start)`; else increment and admit.
Returns the result together with the updated window.  Spec operation name:
`check_and_admit`. -/
def checkAndAdmit (now : Nat) (w : Option RateWindow) (limit : Nat) :
    AdmitResult × RateWindow :=
  match w with
  | none => (.Admitted, ⟨now, 1⟩)
  | some w =>
    if 60 ≤ now - w.window_start then
      (.Admitted, ⟨now, 1⟩)
    else if limit ≤ w.count then
      (.Denied (60 - (now - w.window_start)), w)
    else
      (.Admitted, ⟨w.window_start, w.count + 1⟩)

/-- Modelled from the spec: sequentially apply `checkAndAdmit` to a list of
arrival times, threading the key's window.  The spec requires the
read-check-increment sequence to be atomic per key, so any concurrent
execution is equivalent to one such sequential order. -/
def runCalls (limit : Nat) : Option RateWindow → List Nat → List AdmitResult
  | _, [] => []
  | w, t :: ts =>
    let r := checkAndAdmit t w limit
    r.1 :: runCalls limit (some r.2) ts

/-- Number of `Admitted` results in a list. -/
def countAdmitted (rs : List AdmitResult) : Nat :=
  rs.countP fun r => match r with | .Admitted => true | _ => false

/-- Number of `Denied` results in a list. -/
def countDenied (rs : List AdmitResult) : Nat :=
  rs.countP fun r => match r with | .Denied _ => true | _ => false

/-- Modelled from the spec: the rate limiter's store maps each `key_id` to its
window; `checkAndAdmit` on one key reads that key's entry and writes back
the updated window, leaving every other key's entry untouched. -/
def storeCheckAndAdmit (now : Nat) (store : String → Option RateWindow)
    (key : String) (limit : Nat) :
    AdmitResult × (String → Option RateWindow) :=
  let r := checkAndAdmit now (store key) limit
  (r.1, fun k => if k = key then some r.2 else store k)

/-- Modelled from the spec: HTTP outcome of the admission stage of
`POST /v1/chat/completions` — 200 on `Admitted`, 429 with a `Retry-After`
header on `Denied(retry_after)`. -/
structure HttpOutcome where
  status : Nat
  retryAfter : Option Nat
deriving DecidableEq, Repr

/-- Modelled from the spec: admission step of the request handler for one
chat-completions request under the given key. -/
def handleChat (now : Nat) (store : String → Option RateWindow)
    (key : String) (limit : Nat) :
    HttpOutcome × (String → Option RateWindow) :=
  let r := storeCheckAndAdmit now store key limit
  match r.1 with
  | .Admitted => (⟨200, none⟩, r.2)
  | .Denied ra => (⟨429, some ra⟩, r.2)

/-- Modelled from the spec: sequential chat requests for one key, threading
the rate-limiter store. -/
def runChat (key : String) (limit : Nat) :
    (String → Option RateWindow) → List Nat → List HttpOutcome
  | _, [] => []
  | store, t :: ts =>
    let r := handleChat t store key limit
    r.1 :: runChat key limit r.2 ts

/-! ## Key store (modelled from the spec, §4.1) -/

/-- Modelled from the spec: an API key record — `key_id`, a one-way derivation
of the secret (`secret_hash`), the display fragment of the secret (source
field name: `prefix`), `rate_limit`, `active`, `created_at`.  The raw secret
is never stored. -/
structure ApiKeyRecord where
  key_id : String
  secret_hash : String
  pfx : String
  rate_limit : Nat
  active : Bool
  created_at : Nat
deriving DecidableEq, Repr

/-- Modelled from the spec: result of `authenticate` — the key's identity and
rate limit, or `Unauthenticated`. -/
inductive AuthResult where
  | ok (key_id : String) (rate_limit : Nat)
  | unauthenticated
deriving DecidableEq, Repr

/-- Modelled from the spec (§4.1): `authenticate(bearerToken)` succeeds with
`key_id, rate_limit` when an active record's stored derivation matches the
presented token's derivation, and fails with `Unauthenticated` when the token
is absent, unknown, or belongs to a revoked key.  The one-way digest is the
parameter `hash`. -/
def authenticate (hash : String → String) (store : List ApiKeyRecord)
    (token : Option String) : AuthResult :=
  match token with
  | none => .unauthenticated
  | some t =>
    match store.find? (fun r => r.active && r.secret_hash == hash t) with
    | some r => .ok r.key_id r.rate_limit
    | none => .unauthenticated

/-- Modelled from the spec: result of `issue` — the raw secret (returned
exactly once) together with the extended store, or `Conflict`. -/
inductive IssueResult where
  | issued (secret : String) (store : List ApiKeyRecord)
  | conflict
deriving Repr

/-- Modelled from the spec (§4.1): `issue(key_id, rate_limit)` fails with
`Conflict` when `key_id` already exists, otherwise appends a record keeping
only the secret's prefix and one-way digest and returns the raw secret.  The
freshly generated secret is passed in as `secret`. -/
def issue (hash : String → String) (store : List ApiKeyRecord)
    (key_id : String) (rate_limit : Nat) (secret : String) (now : Nat) :
    IssueResult :=
  if store.any (fun r => r.key_id == key_id) then .conflict
  else .issued secret
    (store ++ [⟨key_id, hash secret, secret.take 10 ++ "...", rate_limit, true, now⟩])

/-! ## Request handler state machine and usage recording (modelled from the
spec, §4.5–4.6) -/

/-- Modelled from the spec: one structured usage event per terminated
request. -/
structure UsageEvent where
  timestamp : Nat
  key_id : String
  model : String
  backend : String
  status : String
  ttfb_ms : Nat
  latency_ms : Nat
  prompt_tokens : Nat
  completion_tokens : Nat
deriving DecidableEq, Repr

/-- Modelled from the spec (§4.6): the request state machine
`Received → Authenticated → Admitted → Routed → Proxying → {Completed, Failed}`. -/
inductive ReqState where
  | Received
  | Authenticated
  | Admitted
  | Routed
  | Proxying
  | Completed
  | Failed
deriving DecidableEq, Repr

/-- `Completed` and `Failed` are the terminal states. -/
def isTerminal : ReqState → Bool
  | .Completed => true
  | .Failed => true
  | _ => false

/-- Outcome of each pipeline stage for one request: whether authentication,
admission, routing and proxying succeed. -/
structure StageOutcomes where
  authOk : Bool
  admitOk : Bool
  routeOk : Bool
  proxyOk : Bool
deriving DecidableEq, Repr

/-- Modelled from the spec (§4.6): drive one request through the pipeline.
Any failure to authenticate, admit, or route short-circuits directly to
`Failed`; a proxy failure also ends in `Failed`; otherwise the request ends
in `Completed`.  Exactly one `UsageEvent` is recorded on the transition into
the terminal state, whatever the failing stage; `mkEvent` builds the event
from the terminal status string. -/
def handleRequest (sr : StageOutcomes) (mkEvent : String → UsageEvent) :
    ReqState × List UsageEvent :=
  if !sr.authOk then (.Failed, [mkEvent "unauthenticated"])
  else if !sr.admitOk then (.Failed, [mkEvent "rate_limited"])
  else if !sr.routeOk then (.Failed, [mkEvent "bad_request"])
  else if !sr.proxyOk then (.Failed, [mkEvent "backend_error"])
  else (.Completed, [mkEvent "success"])

/-- Modelled from the spec: handle a batch of requests independently. -/
def handleAll (reqs : List StageOutcomes) (mkEvent : String → UsageEvent) :
    List (ReqState × List UsageEvent) :=
  reqs.map fun sr => handleRequest sr mkEvent

/-! ## Streaming response body (modelled from the spec, §4.4 and §6) -/

/-- Modelled from the spec: one event of a streaming response body — a
`data: <json-chunk>` line or the literal `data: [DONE]` terminator. -/
inductive SseEvent where
  | chunk (payload : List Char)
  | done
deriving DecidableEq, Repr

/-- Modelled from the spec (§4.4, §6): the streaming response body emitted by
the stream proxy — every content chunk in order, wrapped as a `data:` event,
followed by the terminal `[DONE]` marker emitted exactly once on upstream
completion. -/
def streamBody (chunks : List (List Char)) : List SseEvent :=
  chunks.map SseEvent.chunk ++ [SseEvent.done]

end Gateway

namespace Playground

/-! ## Playground SSE client (embedded from
`src/web/app/components/Playground.tsx`)

The reader loop of `handleSubmit` (lines 68–103): decoded text is appended to
a carry-over `buffer`, split on `'\n'`, the last (possibly incomplete) segment
is put back into the buffer, and each complete line is processed: lines not
starting with `"data: "` are ignored; the `[DONE]` payload clears the
streaming flag; otherwise the payload is JSON-parsed and
`choices[0].delta.content`, when present and non-empty, is appended to the
assistant message; parse failures are swallowed by the `try`/`catch`.
`JSON.parse` followed by the `choices?.[0]?.delta?.content` projection is
abstracted as a function `parse : List Char → Option (List Char)` (`none`
models both a JSON parse error and an absent content field). -/

/-- Split a character list at every `'\n'`, JavaScript `String.split` style:
the result always has one more segment than there are newlines, and a
trailing newline yields a final empty segment. -/
def splitNL : List Char → List (List Char)
  | [] => [[]]
  | c :: rest =>
    if c = '\n' then [] :: splitNL rest
    else
      match splitNL rest with
      | [] => [[c]]
      | l :: ls => (c :: l) :: ls

/-- The six characters of the SSE line marker `"data: "`. -/
def dataPrefix : List Char := "data: ".toList

/-- The terminal payload `"[DONE]"`. -/
def doneMarker : List Char := "[DONE]".toList

/-- `line.startsWith('data: ')` from the source. -/
def isDataLine (l : List Char) : Bool := l.take 6 = dataPrefix

/-- Per-request client state: the assistant message assembled so far and the
`streaming` flag. -/
structure RelayState where
  content : List Char
  streamingFlag : Bool
deriving DecidableEq, Repr

/-- Processing of one complete line (Playground.tsx lines 78–101). -/
def processLine (parse : List Char → Option (List Char))
    (st : RelayState) (line : List Char) : RelayState :=
  if isDataLine line then
    if line.drop 6 = doneMarker then { st with streamingFlag := false }
    else
      match parse (line.drop 6) with
      | some c => if c = [] then st else { st with content := st.content ++ c }
      | none => st
  else st

/-- Loop state of the reader: relay state plus the carry-over buffer. -/
structure LoopState where
  st : RelayState
  buffer : List Char
deriving DecidableEq, Repr

/-- Initial loop state: empty message, `streaming = true`, empty buffer. -/
def initLoopState : LoopState := ⟨⟨[], true⟩, []⟩

/-- One `reader.read()` iteration (Playground.tsx lines 71–102): append the
decoded chunk to the buffer, split on newlines, keep the last segment as the
new buffer, process the complete lines. -/
def processRead (parse : List Char → Option (List Char))
    (ls : LoopState) (chunk : List Char) : LoopState :=
  let lines := splitNL (ls.buffer ++ chunk)
  ⟨lines.dropLast.foldl (processLine parse) ls.st, lines.getLastD []⟩

/-- The whole reader loop over a list of decoded chunks. -/
def runReader (parse : List Char → Option (List Char))
    (chunks : List (List Char)) : LoopState :=
  chunks.foldl (processRead parse) initLoopState

/-- Reference run: process the undivided stream in one pass. -/
def processAll (parse : List Char → Option (List Char)) (s : List Char) :
    LoopState :=
  ⟨(splitNL s).dropLast.foldl (processLine parse) ⟨[], true⟩,
    (splitNL s).getLastD []⟩

/-- Content contributed by a single complete line. -/
def lineContent (parse : List Char → Option (List Char)) (line : List Char) :
    List Char :=
  if isDataLine line then
    if line.drop 6 = doneMarker then []
    else
      match parse (line.drop 6) with
      | some c => c
      | none => []
  else []

/-- In-order concatenation of the contents of a list of lines. -/
def linesContent (parse : List Char → Option (List Char))
    (lines : List (List Char)) : List Char :=
  (lines.map (lineContent parse)).flatten

/-- Reading of claim C9: contents of the parseable `data: ` lines strictly
before the first `[DONE]` marker. -/
def linesContentBeforeDone (parse : List Char → Option (List Char))
    (lines : List (List Char)) : List Char :=
  linesContent parse
    (lines.takeWhile fun l => !(isDataLine l && l.drop 6 = doneMarker))

/-- Merge a pending segment into the head of a segment list. -/
def mergeHead (p : List Char) : List (List Char) → List (List Char)
  | [] => [p]
  | l :: ls => (p ++ l) :: ls

end Playground

namespace Console

/-! ## Console page (embedded from `src/unnamed/part_000`, the key-management
Console component) -/

/-- Key metadata as listed by `GET /v1/keys` (the `ApiKey` interface of the
Console; source field name of `pfx` is `prefix`). -/
structure ApiKey where
  key_id : String
  pfx : String
  created_at : String
  rate_limit : Nat
  active : Bool
deriving DecidableEq, Repr

/-- Usage aggregates as returned by `GET /v1/usage`. -/
structure UsageStats where
  total_requests : Nat
  total_tokens : Nat
  avg_latency_ms : Nat
deriving DecidableEq, Repr

/-- Outcome of a `fetch`: an `ok` response with parsed JSON body, a non-ok
HTTP response, or a rejected promise (network failure / JSON parse error). -/
inductive FetchOutcome (α : Type) where
  | ok (body : α)
  | httpError
  | networkError
deriving DecidableEq, Repr

/-- The hard-coded fallback key list of `loadApiKeys` (lines 54–60); the
`created_at` field is `new Date().toISOString()`, passed in as `now`. -/
def fallbackKeys (now : String) : List ApiKey :=
  [⟨"default", "sk-dev-default-key...", now, 30, true⟩]

/-- `loadApiKeys` (lines 43–62): on success take `data.data || []`; a non-ok
response throws and the `catch` substitutes the fallback key list, as does a
rejected fetch. -/
def loadApiKeys (now : String) (res : FetchOutcome (Option (List ApiKey))) :
    List ApiKey :=
  match res with
  | .ok body => body.getD []
  | .httpError => fallbackKeys now
  | .networkError => fallbackKeys now

/-- The hard-coded fallback statistics of `loadUsageStats` (lines 75–79). -/
def zeroStats : UsageStats := ⟨0, 0, 0⟩

/-- `loadUsageStats` (lines 64–81): on success store the parsed stats; any
failure substitutes the zero statistics. -/
def loadUsageStats (res : FetchOutcome UsageStats) : Option UsageStats :=
  match res with
  | .ok s => some s
  | .httpError => some zeroStats
  | .networkError => some zeroStats

/-- Rendered state of the Console: the key list and the usage statistics.
The component keeps no error state for these two loads — failures are only
written to `console.error`. -/
structure ConsoleState where
  apiKeys : List ApiKey
  usageStats : Option UsageStats
deriving DecidableEq, Repr

/-- State update performed by `loadApiKeys` via `setApiKeys`. -/
def applyLoadKeys (now : String) (st : ConsoleState)
    (res : FetchOutcome (Option (List ApiKey))) : ConsoleState :=
  { st with apiKeys := loadApiKeys now res }

/-- State update performed by `loadUsageStats` via `setUsageStats`. -/
def applyLoadStats (st : ConsoleState) (res : FetchOutcome UsageStats) :
    ConsoleState :=
  { st with usageStats := loadUsageStats res }

end Console

/-! # Theorems -/

namespace Gateway

theorem countAdmitted_cons (r : AdmitResult) (rs : List AdmitResult) :
    countAdmitted (r :: rs) =
      (match r with | .Admitted => 1 | _ => 0) + countAdmitted rs := by
  cases r <;> simp [countAdmitted, List.countP_cons] <;> omega

theorem countDenied_cons (r : AdmitResult) (rs : List AdmitResult) :
    countDenied (r :: rs) =
      (match r with | .Denied _ => 1 | _ => 0) + countDenied rs := by
  cases r <;> simp [countDenied, List.countP_cons] <;> omega

theorem countAdmitted_cons_admitted (rs : List AdmitResult) :
    countAdmitted (.Admitted :: rs) = countAdmitted rs + 1 := by
  simp [countAdmitted, List.countP_cons]

/-- Every result is either an admission or a denial, so the two counts
partition the run. -/
theorem countAdmitted_add_countDenied (rs : List AdmitResult) :
    countAdmitted rs + countDenied rs = rs.length := by
  induction rs with
  | nil => rfl
  | cons r rs ih =>
    cases r <;> simp [countAdmitted_cons, countDenied_cons] <;> omega

/-- Core counting lemma: starting from a window `⟨t₁, c⟩` with every later
arrival inside the window (`t − t₁ < 60`), the number of admissions equals
`min ts.length (limit − c)`. -/
theorem countAdmitted_runCalls (limit : Nat) (t₁ c : Nat) (ts : List Nat)
    (hin : ∀ t ∈ ts, t - t₁ < 60) :
    countAdmitted (runCalls limit (some ⟨t₁, c⟩) ts) =
      min ts.length (limit - c) := by
  induction ts generalizing c with
  | nil => simp [runCalls, countAdmitted]
  | cons t ts ih =>
    have ht : t - t₁ < 60 := hin t (by simp)
    have hin' : ∀ t' ∈ ts, t' - t₁ < 60 := fun t' h => hin t' (by simp [h])
    by_cases hc : limit ≤ c
    · have hca : checkAndAdmit t (some ⟨t₁, c⟩) limit =
          (.Denied (60 - (t - t₁)), ⟨t₁, c⟩) := by
        simp [checkAndAdmit, Nat.not_le.mpr ht, hc]
      simp only [runCalls, hca, countAdmitted_cons, ih c hin', List.length_cons]
      omega
    · have hca : checkAndAdmit t (some ⟨t₁, c⟩) limit =
          (.Admitted, ⟨t₁, c + 1⟩) := by
        simp [checkAndAdmit, Nat.not_le.mpr ht, hc]
      simp only [runCalls, hca, countAdmitted_cons, ih (c + 1) hin', List.length_cons]
      omega

theorem runCalls_length (limit : Nat) (w : Option RateWindow) (ts : List Nat) :
    (runCalls limit w ts).length = ts.length := by
  induction ts generalizing w with
  | nil => rfl
  | cons t ts ih => simp [runCalls, ih]

end Gateway

/-- C1: `checkAndAdmit` follows the specified algorithm — no window resets
and admits; an elapsed window (`now − window_start ≥ 60`) resets and admits;
inside the window, `count ≥ limit` denies with
`retry_after = 60 − (now − window_start)` and an unchanged window, otherwise
the count is incremented and the call admits.  Consequently `count < limit`
in the current window yields `Admitted`, and `count = limit` yields `Denied`
with `retry_after > 0`. -/
theorem Gateway.checkAndAdmit_correct (now limit : Nat) (w : Gateway.RateWindow) :
    Gateway.checkAndAdmit now none limit = (.Admitted, ⟨now, 1⟩)
    ∧ (60 ≤ now - w.window_start →
        Gateway.checkAndAdmit now (some w) limit = (.Admitted, ⟨now, 1⟩))
    ∧ (now - w.window_start < 60 → limit ≤ w.count →
        Gateway.checkAndAdmit now (some w) limit =
          (.Denied (60 - (now - w.window_start)), w))
    ∧ (now - w.window_start < 60 → w.count < limit →
        Gateway.checkAndAdmit now (some w) limit =
          (.Admitted, ⟨w.window_start, w.count + 1⟩))
    ∧ (now - w.window_start < 60 → w.count = limit →
        0 < 60 - (now - w.window_start)
        ∧ (Gateway.checkAndAdmit now (some w) limit).1 =
            .Denied (60 - (now - w.window_start)))
    := by
  refine ⟨rfl, ?_, ?_, ?_, ?_⟩
  · intro h
    simp [Gateway.checkAndAdmit, h]
  · intro h hc
    simp [Gateway.checkAndAdmit, Nat.not_le.mpr h, hc]
  · intro h hc
    simp [Gateway.checkAndAdmit, Nat.not_le.mpr h, Nat.not_le.mpr hc]
  · intro h hc
    constructor
    · omega
    · simp [Gateway.checkAndAdmit, Nat.not_le.mpr h, hc.ge]

/-- C1 witness: at `now = 10` with window `⟨0, 2⟩` and `limit = 2`, the
window is current and full, so the call is denied with `retry_after = 50`. -/
theorem Gateway.checkAndAdmit_correct_witness :
    10 - 0 < 60 ∧ (2 : Nat) = 2
    ∧ 0 < 60 - (10 - 0)
    ∧ (Gateway.checkAndAdmit 10 (some ⟨0, 2⟩) 2).1 = .Denied (60 - (10 - 0)) := by
  refine ⟨by decide, rfl, ?_, ?_⟩
  · exact ((Gateway.checkAndAdmit_correct 10 2 ⟨0, 2⟩).2.2.2.2 (by decide) rfl).1
  · exact ((Gateway.checkAndAdmit_correct 10 2 ⟨0, 2⟩).2.2.2.2 (by decide) rfl).2

/-- C2: starting from a fresh key, any sequence of `N = ts.length + 1` calls
on the same key whose arrivals all fall inside the 60-second window opened by
the first call, with `N` exceeding the (positive) rate limit, admits exactly
`limit` calls and denies the remaining `N − limit`.  The spec makes the
read-check-increment sequence atomic per key, so every interleaving of
concurrent callers is one such sequential order: none admits more than
`limit`. -/
theorem Gateway.window_admits_exactly_limit (limit t₁ : Nat) (ts : List Nat)
    (hl : 0 < limit) (hin : ∀ t ∈ ts, t - t₁ < 60)
    (hN : limit < ts.length + 1) :
    Gateway.countAdmitted (Gateway.runCalls limit none (t₁ :: ts)) = limit
    ∧ Gateway.countDenied (Gateway.runCalls limit none (t₁ :: ts)) =
        (ts.length + 1) - limit := by
  have h1 : Gateway.runCalls limit none (t₁ :: ts) =
      .Admitted :: Gateway.runCalls limit (some ⟨t₁, 1⟩) ts := by
    simp [Gateway.runCalls, Gateway.checkAndAdmit]
  have hA : Gateway.countAdmitted (Gateway.runCalls limit none (t₁ :: ts)) = limit := by
    rw [h1, Gateway.countAdmitted_cons_admitted,
      Gateway.countAdmitted_runCalls limit t₁ 1 ts hin]
    omega
  refine ⟨hA, ?_⟩
  have hpart := Gateway.countAdmitted_add_countDenied
    (Gateway.runCalls limit none (t₁ :: ts))
  have hlen : (Gateway.runCalls limit none (t₁ :: ts)).length = ts.length + 1 := by
    rw [Gateway.runCalls_length]
    rfl
  omega

/-- C2 witness: rate limit 2 and four same-window calls — exactly two
admitted, two denied. -/
theorem Gateway.window_admits_exactly_limit_witness :
    0 < 2 ∧ (∀ t ∈ [1, 2, 3], t - 0 < 60) ∧ 2 < [1, 2, 3].length + 1
    ∧ Gateway.countAdmitted (Gateway.runCalls 2 none (0 :: [1, 2, 3])) = 2
    ∧ Gateway.countDenied (Gateway.runCalls 2 none (0 :: [1, 2, 3])) =
        ([1, 2, 3].length + 1) - 2 := by
  refine ⟨by decide, by decide, by decide, ?_⟩
  exact Gateway.window_admits_exactly_limit 2 0 [1, 2, 3]
    (by decide) (by decide) (by decide)

/-- C3: admission is accounted per key.  The outcome of `checkAndAdmit` on
`key` depends only on that key's window and limit; the call updates exactly
`key`'s window and leaves every other key's window unchanged; and a call made
under another key leaves this key's window — and hence its admission
outcome — unchanged. -/
theorem Gateway.rate_limit_per_key_frame (now limit limit₂ : Nat)
    (store store₂ : String → Option Gateway.RateWindow) (key other : String)
    (hne : other ≠ key) (hagree : store key = store₂ key) :
    (Gateway.storeCheckAndAdmit now store key limit).1 =
        (Gateway.storeCheckAndAdmit now store₂ key limit).1
    ∧ (Gateway.storeCheckAndAdmit now store key limit).2 key =
        some (Gateway.checkAndAdmit now (store key) limit).2
    ∧ (Gateway.storeCheckAndAdmit now store key limit).2 other = store other
    ∧ (Gateway.storeCheckAndAdmit now store other limit₂).2 key = store key
    ∧ (Gateway.storeCheckAndAdmit now
          ((Gateway.storeCheckAndAdmit now store other limit₂).2) key limit).1 =
        (Gateway.storeCheckAndAdmit now store key limit).1 := by
  have hne' : key ≠ other := hne.symm
  refine ⟨?_, ?_, ?_, ?_, ?_⟩
  · simp [Gateway.storeCheckAndAdmit, hagree]
  · simp [Gateway.storeCheckAndAdmit]
  · simp [Gateway.storeCheckAndAdmit, hne]
  · simp [Gateway.storeCheckAndAdmit, hne']
  · simp [Gateway.storeCheckAndAdmit, hne']

/-- C3 witness: keys "a" and "b" over a concrete store. -/
theorem Gateway.rate_limit_per_key_frame_witness :
    ("b" : String) ≠ "a"
    ∧ (fun (_ : String) => (none : Option Gateway.RateWindow)) "a" =
        (fun (_ : String) => (none : Option Gateway.RateWindow)) "a"
    ∧ (Gateway.storeCheckAndAdmit 5 (fun _ => none) "b" 7).2 "a" =
        (fun (_ : String) => (none : Option Gateway.RateWindow)) "a" := by
  refine ⟨by decide, rfl, ?_⟩
  exact (Gateway.rate_limit_per_key_frame 5 3 7 (fun _ => none) (fun _ => none)
    "a" "b" (by decide) rfl).2.2.2.1

/-- C4: key `k1` with rate limit 2 — three sequential chat-completions
requests in the same second: the first two succeed with status 200, the third
is rejected with status 429 and a `Retry-After` of 60 seconds, which lies
between 1 and 60. -/
theorem Gateway.three_requests_same_second (t : Nat) :
    Gateway.runChat "k1" 2 (fun _ => none) [t, t, t] =
      [⟨200, none⟩, ⟨200, none⟩, ⟨429, some 60⟩]
    ∧ 1 ≤ 60 ∧ 60 ≤ 60 := by
  refine ⟨?_, by omega, by omega⟩
  simp [Gateway.runChat, Gateway.handleChat, Gateway.storeCheckAndAdmit,
    Gateway.checkAndAdmit, Nat.sub_self]

namespace Playground

theorem splitNL_ne_nil (s : List Char) : splitNL s ≠ [] := by
  match s with
  | [] => simp [splitNL]
  | c :: rest =>
    simp only [splitNL]
    split
    · simp
    · split <;> simp

theorem mergeHead_ne_nil (p : List Char) (l : List (List Char)) :
    mergeHead p l ≠ [] := by
  cases l <;> simp [mergeHead]

theorem getLastD_cons_of_ne_nil (x d : List Char) (l : List (List Char))
    (h : l ≠ []) : (x :: l).getLastD d = l.getLastD d := by
  cases l with
  | nil => exact absurd rfl h
  | cons y ys => simp [List.getLastD_cons]

theorem getLastD_append_right (A B : List (List Char)) (d : List Char)
    (h : B ≠ []) : (A ++ B).getLastD d = B.getLastD d := by
  induction A with
  | nil => rfl
  | cons x A ih =>
    have hne : A ++ B ≠ [] := fun hc => h (List.append_eq_nil.mp hc).2
    rw [List.cons_append, getLastD_cons_of_ne_nil x d (A ++ B) hne, ih]

/-- Splitting a concatenation: the last segment of `a` merges with the first
segment of `b`. -/
theorem splitNL_append (a b : List Char) :
    splitNL (a ++ b) =
      (splitNL a).dropLast ++ mergeHead ((splitNL a).getLastD []) (splitNL b) := by
  induction a with
  | nil =>
    cases hb : splitNL b with
    | nil => exact absurd hb (splitNL_ne_nil b)
    | cons l ls => simp [splitNL, mergeHead, hb]
  | cons c a ih =>
    by_cases hc : c = '\n'
    · subst hc
      have h1 : splitNL ('\n' :: (a ++ b)) = [] :: splitNL (a ++ b) := by
        simp [splitNL]
      have h2 : splitNL ('\n' :: a) = [] :: splitNL a := by
        simp [splitNL]
      rw [List.cons_append, h1, h2, ih,
        List.dropLast_cons_of_ne_nil (splitNL_ne_nil a),
        getLastD_cons_of_ne_nil [] [] (splitNL a) (splitNL_ne_nil a),
        List.cons_append]
    · have hunfold : ∀ z : List Char, splitNL (c :: z) =
          match splitNL z with
          | [] => [[c]]
          | l :: ls => (c :: l) :: ls := by
        intro z
        simp [splitNL, hc]
      cases hsa : splitNL a with
      | nil => exact absurd hsa (splitNL_ne_nil a)
      | cons x xs =>
        cases hsb : splitNL b with
        | nil => exact absurd hsb (splitNL_ne_nil b)
        | cons hb tb =>
          cases xs with
          | nil =>
            have hab : splitNL (a ++ b) = (x ++ hb) :: tb := by
              rw [ih, hsa, hsb]
              simp [mergeHead]
            rw [List.cons_append, hunfold (a ++ b), hab, hunfold a, hsa]
            simp [mergeHead]
          | cons y ys =>
            have hab : splitNL (a ++ b) =
                x :: ((y :: ys).dropLast ++
                  mergeHead ((y :: ys).getLastD []) (hb :: tb)) := by
              rw [ih, hsa, hsb,
                List.dropLast_cons_of_ne_nil (by simp : (y :: ys) ≠ []),
                getLastD_cons_of_ne_nil x [] (y :: ys) (by simp),
                List.cons_append]
            rw [List.cons_append, hunfold (a ++ b), hab, hunfold a, hsa]
            rw [List.dropLast_cons_of_ne_nil (by simp : (y :: ys) ≠ []),
              getLastD_cons_of_ne_nil (c :: x) [] (y :: ys) (by simp),
              List.cons_append]

theorem splitNL_mem_no_newline (s : List Char) :
    ∀ l ∈ splitNL s, '\n' ∉ l := by
  induction s with
  | nil =>
    intro l hl
    simp [splitNL] at hl
    subst hl
    simp
  | cons c rest ih =>
    intro l hl
    by_cases hc : c = '\n'
    · subst hc
      simp only [splitNL, if_pos rfl] at hl
      rcases List.mem_cons.mp hl with h | h
      · subst h
        simp
      · exact ih l h
    · simp only [splitNL, if_neg hc] at hl
      cases hsr : splitNL rest with
      | nil => exact absurd hsr (splitNL_ne_nil rest)
      | cons x xs =>
        rw [hsr] at hl
        rcases List.mem_cons.mp hl with h | h
        · subst h
          intro hmem
          rcases List.mem_cons.mp hmem with h' | h'
          · exact hc h'.symm
          · exact ih x (by rw [hsr]; exact List.mem_cons_self x xs) h'
        · exact ih l (by rw [hsr]; exact List.mem_cons_of_mem x h)

theorem splitNL_of_no_newline (l : List Char) (h : '\n' ∉ l) :
    splitNL l = [l] := by
  induction l with
  | nil => rfl
  | cons c rest ih =>
    have hc : ¬ c = '\n' := fun hc => h (hc ▸ List.mem_cons_self c rest)
    have hrest : '\n' ∉ rest := fun hm => h (List.mem_cons_of_mem c hm)
    simp [splitNL, hc, ih hrest]

theorem getLastD_mem (l : List (List Char)) (d : List Char) (h : l ≠ []) :
    l.getLastD d ∈ l := by
  induction l with
  | nil => exact absurd rfl h
  | cons x xs ih =>
    cases xs with
    | nil => simp
    | cons y ys =>
      rw [getLastD_cons_of_ne_nil x d (y :: ys) (by simp)]
      exact List.mem_cons_of_mem x (ih (by simp))

theorem splitNL_getLastD_no_newline (s : List Char) :
    '\n' ∉ (splitNL s).getLastD [] :=
  splitNL_mem_no_newline s _ (getLastD_mem _ [] (splitNL_ne_nil s))

/-- One read step starting from the canonical state of the stream consumed so
far lands in the canonical state of the extended stream: the carry-over
buffer exactly compensates for the arbitrary chunk boundary. -/
theorem processRead_processAll (parse : List Char → Option (List Char))
    (s c : List Char) :
    processRead parse (processAll parse s) c = processAll parse (s ++ c) := by
  have hlast := splitNL_getLastD_no_newline s
  have hsplit_last : splitNL ((splitNL s).getLastD [] ++ c) =
      mergeHead ((splitNL s).getLastD []) (splitNL c) := by
    rw [splitNL_append, splitNL_of_no_newline _ hlast]
    simp
  have hsc := splitNL_append s c
  unfold processRead processAll
  simp only [LoopState.mk.injEq]
  constructor
  · rw [hsplit_last, hsc,
      List.dropLast_append_of_ne_nil _ (mergeHead_ne_nil _ _),
      List.foldl_append]
  · rw [hsplit_last, hsc,
      getLastD_append_right _ _ _ (mergeHead_ne_nil _ _)]

theorem runReader_eq_processAll (parse : List Char → Option (List Char))
    (chunks : List (List Char)) :
    runReader parse chunks = processAll parse chunks.flatten := by
  induction chunks using List.reverseRecOn with
  | nil => rfl
  | append_singleton cs c ih =>
    show List.foldl (processRead parse) initLoopState (cs ++ [c]) = _
    rw [List.foldl_append, List.foldl_cons, List.foldl_nil]
    show processRead parse (runReader parse cs) c = _
    rw [ih, processRead_processAll, List.flatten_append]
    simp

theorem processLine_content (parse : List Char → Option (List Char))
    (st : RelayState) (l : List Char) :
    (processLine parse st l).content = st.content ++ lineContent parse l := by
  unfold processLine lineContent
  split
  · split
    · simp
    · cases h : parse (l.drop 6) with
      | none => simp [h]
      | some c =>
        by_cases hc : c = []
        · subst hc
          simp [h]
        · simp [h, hc]
  · simp

theorem foldl_processLine_content (parse : List Char → Option (List Char))
    (st : RelayState) (lines : List (List Char)) :
    (lines.foldl (processLine parse) st).content =
      st.content ++ linesContent parse lines := by
  induction lines generalizing st with
  | nil => simp [linesContent]
  | cons l lines ih =>
    rw [List.foldl_cons, ih, processLine_content]
    simp [linesContent]

theorem splitNL_concat_newline (s : List Char) :
    ∃ A, A ≠ [] ∧ splitNL (s ++ ['\n']) = A ++ [[]] := by
  induction s with
  | nil => exact ⟨[[]], by simp, rfl⟩
  | cons c s ih =>
    obtain ⟨A, hA, hsplit⟩ := ih
    by_cases hc : c = '\n'
    · subst hc
      refine ⟨[] :: A, by simp, ?_⟩
      simp only [List.cons_append]
      simp [splitNL, hsplit]
    · cases A with
      | nil => exact absurd rfl hA
      | cons x xs =>
        refine ⟨(c :: x) :: xs, by simp, ?_⟩
        have hs2 : splitNL (s ++ ['\n']) = x :: (xs ++ [[]]) := by
          rw [hsplit, List.cons_append]
        rw [List.cons_append]
        simp [splitNL, hc, hs2]

end Playground

/-- C6: a `data:` line whose payload fails to parse (`parse` returns `none`,
covering both a JSON parse error and a missing content field) leaves the
relay state unchanged — the malformed fragment is dropped as if it carried
empty content, the streaming flag is untouched (the loop is a total function,
so no exception terminates the stream) — and processing a line sequence
containing the malformed line delivers exactly what the sequence without it
delivers, so all subsequent well-formed chunks still arrive. -/
theorem Playground.malformed_fragment_dropped
    (parse : List Char → Option (List Char)) (st : Playground.RelayState)
    (bad : List Char) (l₁ l₂ : List (List Char))
    (hdata : Playground.isDataLine bad = true)
    (hnotdone : bad.drop 6 ≠ Playground.doneMarker)
    (hbad : parse (bad.drop 6) = none) :
    Playground.processLine parse st bad = st
    ∧ (l₁ ++ bad :: l₂).foldl (Playground.processLine parse) st =
        (l₁ ++ l₂).foldl (Playground.processLine parse) st := by
  have hdrop : ∀ st' : Playground.RelayState,
      Playground.processLine parse st' bad = st' := by
    intro st'
    simp [Playground.processLine, hdata, hnotdone, hbad]
  refine ⟨hdrop st, ?_⟩
  rw [List.foldl_append, List.foldl_append, List.foldl_cons, hdrop]

/-- C6 witness: the malformed payload `"oops"` under a parser that rejects
everything is dropped without altering the state. -/
theorem Playground.malformed_fragment_dropped_witness :
    Playground.isDataLine "data: oops".toList = true
    ∧ "data: oops".toList.drop 6 ≠ Playground.doneMarker
    ∧ (fun _ : List Char => (none : Option (List Char))) ("data: oops".toList.drop 6) = none
    ∧ Playground.processLine (fun _ => none) ⟨[], true⟩ "data: oops".toList =
        ⟨[], true⟩ := by
  refine ⟨by decide, by decide, rfl, ?_⟩
  exact (Playground.malformed_fragment_dropped (fun _ => none) ⟨[], true⟩
    "data: oops".toList [] [] (by decide) (by decide) rfl).1

/-- C9 counterexample: the claim restricts the assembled message to contents
of lines before `[DONE]`, but the code's `[DONE]` branch only clears the
streaming flag and `continue`s, so a parseable content line arriving after
`[DONE]` is still appended.  With the identity parser and the single-chunk
stream `"data: [DONE]\ndata: x\n"` the assembled message is `"x"` while the
claim predicts the empty message. -/
theorem Playground.sse_before_done_counterexample :
    "data: [DONE]\ndata: x\n".toList =
        "data: [DONE]\ndata: x".toList ++ ['\n']
    ∧ (Playground.runReader some ["data: [DONE]\ndata: x\n".toList]).st.content = ['x']
    ∧ Playground.linesContentBeforeDone some
        ((Playground.splitNL "data: [DONE]\ndata: x\n".toList).dropLast) = []
    ∧ (Playground.runReader some ["data: [DONE]\ndata: x\n".toList]).st.content ≠
        Playground.linesContentBeforeDone some
          ((Playground.splitNL "data: [DONE]\ndata: x\n".toList).dropLast) := by
  exact ⟨by decide, by decide, by decide, by decide⟩

/-- C9 (amended): the Playground's incremental SSE parser is invariant under
re-chunking — for every byte stream ending with a newline, the assistant
message it assembles equals the in-order concatenation of all non-empty
`choices[0].delta.content` fields of the parseable `data:` lines of the
whole stream (including any lines after a `[DONE]` marker, which only clears
the streaming flag), regardless of how the stream is partitioned into
`reader.read()` chunks, because incomplete trailing lines are carried over
in the buffer between reads; the final buffer is empty. -/
theorem Playground.sse_rechunking_invariant
    (parse : List Char → Option (List Char)) (chunks : List (List Char))
    (t : List Char) (hj : chunks.flatten = t ++ ['\n']) :
    (Playground.runReader parse chunks).st.content =
        Playground.linesContent parse
          ((Playground.splitNL chunks.flatten).dropLast)
    ∧ (Playground.runReader parse chunks).buffer = []
    ∧ ∀ chunks₂ : List (List Char), chunks₂.flatten = chunks.flatten →
        Playground.runReader parse chunks₂ = Playground.runReader parse chunks := by
  have hrun := Playground.runReader_eq_processAll parse chunks
  refine ⟨?_, ?_, ?_⟩
  · rw [hrun]
    unfold Playground.processAll
    rw [Playground.foldl_processLine_content]
    simp
  · rw [hrun]
    unfold Playground.processAll
    obtain ⟨A, hA, hsplit⟩ := Playground.splitNL_concat_newline t
    simp only [hj, hsplit]
    rw [List.getLastD_concat]
  · intro chunks₂ h2
    rw [Playground.runReader_eq_processAll parse chunks₂, h2, hrun]

/-- C9 witness: the stream `"data: a\ndata: b\n"` split mid-line into two
chunks assembles exactly the contents of its two lines. -/
theorem Playground.sse_rechunking_invariant_witness :
    ["data: a\nda".toList, "ta: b\n".toList].flatten =
        "data: a\ndata: b".toList ++ ['\n']
    ∧ (Playground.runReader some ["data: a\nda".toList, "ta: b\n".toList]).st.content =
        Playground.linesContent some
          ((Playground.splitNL
            (["data: a\nda".toList, "ta: b\n".toList].flatten)).dropLast)
    ∧ (Playground.runReader some ["data: a\nda".toList, "ta: b\n".toList]).buffer = []
    ∧ Playground.runReader some ["data: a\ndata: b\n".toList] =
        Playground.runReader some ["data: a\nda".toList, "ta: b\n".toList] := by
  have h := Playground.sse_rechunking_invariant some
    ["data: a\nda".toList, "ta: b\n".toList] "data: a\ndata: b".toList (by decide)
  exact ⟨by decide, h.1, h.2.1, h.2.2 ["data: a\ndata: b\n".toList] (by decide)⟩

namespace Gateway

theorem streamBody_done_last_aux (cs : List (List Char))
    (l₁ l₂ : List SseEvent)
    (h : cs.map SseEvent.chunk ++ [SseEvent.done] = l₁ ++ .done :: l₂) :
    l₂ = [] := by
  induction cs generalizing l₁ with
  | nil =>
    cases l₁ with
    | nil => simpa using h
    | cons x l₁ =>
      have hl := congrArg List.length h
      simp at hl
  | cons c cs ih =>
    cases l₁ with
    | nil => simp at h
    | cons x l₁ =>
      rw [List.map_cons, List.cons_append, List.cons_append] at h
      injection h with h1 h2
      exact ih l₁ h2

theorem handleRequest_terminal (sr : StageOutcomes)
    (mkEvent : String → UsageEvent) :
    isTerminal (handleRequest sr mkEvent).1 = true := by
  rcases sr with ⟨a, b, c, d⟩
  cases a <;> cases b <;> cases c <;> cases d <;>
    simp [handleRequest, isTerminal]

theorem handleRequest_one_event (sr : StageOutcomes)
    (mkEvent : String → UsageEvent) :
    (handleRequest sr mkEvent).2.length = 1 := by
  rcases sr with ⟨a, b, c, d⟩
  cases a <;> cases b <;> cases c <;> cases d <;>
    simp [handleRequest]

end Gateway

/-- C5: a streaming response body consists of the request's content chunks in
order followed by the `[DONE]` marker: `[DONE]` occurs exactly once, and
whenever the body is decomposed around a `[DONE]` event, nothing — in
particular no content chunk and no second `[DONE]` — follows it. -/
theorem Gateway.stream_terminates_with_single_done (chunks : List (List Char)) :
    (Gateway.streamBody chunks).count .done = 1
    ∧ ∀ l₁ l₂, Gateway.streamBody chunks = l₁ ++ .done :: l₂ → l₂ = [] := by
  constructor
  · have hnotin : Gateway.SseEvent.done ∉ chunks.map Gateway.SseEvent.chunk := by
      simp [List.mem_map]
    rw [Gateway.streamBody, List.count_append, List.count_eq_zero.mpr hnotin]
    rfl
  · intro l₁ l₂ h
    exact Gateway.streamBody_done_last_aux chunks l₁ l₂ h

/-- C5 witness: the one-chunk body `[chunk "hi", done]` decomposed at its
`[DONE]` leaves nothing after it. -/
theorem Gateway.stream_terminates_with_single_done_witness :
    (Gateway.streamBody [['h', 'i']]).count .done = 1
    ∧ Gateway.streamBody [['h', 'i']] = [.chunk ['h', 'i']] ++ .done :: []
    ∧ ([] : List Gateway.SseEvent) = [] := by
  refine ⟨(Gateway.stream_terminates_with_single_done [['h', 'i']]).1, by decide, ?_⟩
  exact (Gateway.stream_terminates_with_single_done [['h', 'i']]).2
    [.chunk ['h', 'i']] [] (by decide)

/-- C7: issuing a fresh key and then authenticating with the returned secret
succeeds and yields that `key_id` and `rate_limit`; for any other presented
string the new record is invisible — authentication behaves exactly as on the
pre-issue store and in particular can never authenticate as the fresh
`key_id`.  The one-way digest `hash` is injective and the issued secret's
digest collides with no stored record. -/
theorem Gateway.issue_authenticate_roundtrip
    (hash : String → String) (store : List Gateway.ApiKeyRecord)
    (key_id : String) (rate_limit : Nat) (s : String) (now : Nat)
    (hinj : ∀ a b : String, hash a = hash b → a = b)
    (hfresh_id : ∀ r ∈ store, r.key_id ≠ key_id)
    (hfresh_secret : ∀ r ∈ store, r.secret_hash ≠ hash s) :
    ∃ store₂,
      Gateway.issue hash store key_id rate_limit s now = .issued s store₂
      ∧ Gateway.authenticate hash store₂ (some s) = .ok key_id rate_limit
      ∧ (∀ t, t ≠ s →
          Gateway.authenticate hash store₂ (some t) =
            Gateway.authenticate hash store (some t))
      ∧ (∀ t rl, t ≠ s →
          Gateway.authenticate hash store₂ (some t) ≠ .ok key_id rl) := by
  refine ⟨store ++ [⟨key_id, hash s, s.take 10 ++ "...", rate_limit, true, now⟩],
    ?_, ?_, ?_, ?_⟩
  · have hnone : store.any (fun r => r.key_id == key_id) = false := by
      rw [List.any_eq_false]
      intro r hr
      simp [hfresh_id r hr]
    simp [Gateway.issue, hnone]
  · have hstore : store.find?
        (fun r => r.active && r.secret_hash == hash s) = none := by
      rw [List.find?_eq_none]
      intro r hr
      simp [hfresh_secret r hr]
    simp [Gateway.authenticate, List.find?_append, hstore]
  · intro t ht
    have hth : hash t ≠ hash s := fun hc => ht (hinj t s hc)
    have hnew : List.find? (fun r => r.active && r.secret_hash == hash t)
        [(⟨key_id, hash s, s.take 10 ++ "...", rate_limit, true, now⟩ :
          Gateway.ApiKeyRecord)] = none := by
      have hbeq : (hash s == hash t) = false := by
        simp [Ne.symm hth]
      simp [List.find?, hbeq]
    simp [Gateway.authenticate, List.find?_append, hnew]
  · intro t rl ht hok
    have hth : hash t ≠ hash s := fun hc => ht (hinj t s hc)
    have hnew : List.find? (fun r => r.active && r.secret_hash == hash t)
        [(⟨key_id, hash s, s.take 10 ++ "...", rate_limit, true, now⟩ :
          Gateway.ApiKeyRecord)] = none := by
      have hbeq : (hash s == hash t) = false := by
        simp [Ne.symm hth]
      simp [List.find?, hbeq]
    rw [Gateway.authenticate] at hok
    rw [List.find?_append, hnew, Option.or_none] at hok
    cases hfind : store.find? (fun r => r.active && r.secret_hash == hash t) with
    | none => rw [hfind] at hok; exact absurd hok (by simp)
    | some r =>
      rw [hfind] at hok
      have hmem := List.mem_of_find?_eq_some hfind
      have : r.key_id = key_id := by
        have := Gateway.AuthResult.ok.injEq r.key_id r.rate_limit key_id rl
        rw [this] at hok
        exact hok.1
      exact hfresh_id r hmem this

/-- C7 witness: issuing `demo` with secret `sk-123` into the empty store
under the identity digest. -/
theorem Gateway.issue_authenticate_roundtrip_witness :
    (∀ a b : String, (fun x : String => x) a = (fun x : String => x) b → a = b)
    ∧ (∀ r ∈ ([] : List Gateway.ApiKeyRecord), r.key_id ≠ "demo")
    ∧ (∀ r ∈ ([] : List Gateway.ApiKeyRecord),
        r.secret_hash ≠ (fun x : String => x) "sk-123")
    ∧ ∃ store₂,
        Gateway.issue (fun x => x) [] "demo" 10 "sk-123" 0 = .issued "sk-123" store₂
        ∧ Gateway.authenticate (fun x => x) store₂ (some "sk-123") = .ok "demo" 10
        ∧ (∀ t, t ≠ "sk-123" →
            Gateway.authenticate (fun x => x) store₂ (some t) =
              Gateway.authenticate (fun x => x) [] (some t))
        ∧ (∀ t rl, t ≠ "sk-123" →
            Gateway.authenticate (fun x => x) store₂ (some t) ≠ .ok "demo" rl) := by
  refine ⟨fun a b h => h, by simp, by simp, ?_⟩
  exact Gateway.issue_authenticate_roundtrip (fun x => x) [] "demo" 10 "sk-123" 0
    (fun a b h => h) (by simp) (by simp)

/-- C8: every request reaches a terminal state and records exactly one
`UsageEvent` on the transition into it, whichever stage failed; over any
batch, the number of recorded events equals the number of requests that
reached a terminal state, which is all of them. -/
theorem Gateway.usage_event_per_terminal (sr : Gateway.StageOutcomes)
    (mkEvent : String → Gateway.UsageEvent)
    (reqs : List Gateway.StageOutcomes) :
    Gateway.isTerminal (Gateway.handleRequest sr mkEvent).1 = true
    ∧ (Gateway.handleRequest sr mkEvent).2.length = 1
    ∧ ((Gateway.handleAll reqs mkEvent).map fun p => p.2.length).sum =
        (Gateway.handleAll reqs mkEvent).countP (fun p => Gateway.isTerminal p.1)
    ∧ ((Gateway.handleAll reqs mkEvent).countP (fun p => Gateway.isTerminal p.1)) =
        reqs.length := by
  refine ⟨Gateway.handleRequest_terminal sr mkEvent,
    Gateway.handleRequest_one_event sr mkEvent, ?_, ?_⟩
  · induction reqs with
    | nil => rfl
    | cons r reqs ih =>
      simp only [Gateway.handleAll, List.map_cons, List.sum_cons,
        List.countP_cons] at ih ⊢
      rw [Gateway.handleRequest_one_event r mkEvent, ih,
        Gateway.handleRequest_terminal r mkEvent]
      simp [Nat.add_comm]
  · induction reqs with
    | nil => rfl
    | cons r reqs ih =>
      simp only [Gateway.handleAll, List.map_cons, List.countP_cons,
        List.length_cons] at ih ⊢
      rw [ih, Gateway.handleRequest_terminal r mkEvent]
      simp

/-- C10: whenever `GET /v1/keys` or `GET /v1/usage` fails (non-ok response or
rejected fetch), the Console replaces the corresponding rendered state with
the hard-coded fallback — the single key record
`{key_id: "default", rate_limit: 30, active: true}` respectively the zero
usage statistics — irrespective of the previously rendered state, and keeps
no error state for these loads. -/
theorem Console.failed_load_falls_back (now : String)
    (st : Console.ConsoleState)
    (res : Console.FetchOutcome (Option (List Console.ApiKey)))
    (res₂ : Console.FetchOutcome Console.UsageStats)
    (hk : ∀ b, res ≠ .ok b) (hs : ∀ b, res₂ ≠ .ok b) :
    Console.applyLoadKeys now st res =
        ⟨Console.fallbackKeys now, st.usageStats⟩
    ∧ Console.applyLoadStats st res₂ = ⟨st.apiKeys, some Console.zeroStats⟩
    ∧ Console.fallbackKeys now =
        [⟨"default", "sk-dev-default-key...", now, 30, true⟩] := by
  refine ⟨?_, ?_, rfl⟩
  · cases res with
    | ok b => exact absurd rfl (hk b)
    | httpError => rfl
    | networkError => rfl
  · cases res₂ with
    | ok b => exact absurd rfl (hs b)
    | httpError => rfl
    | networkError => rfl

/-- C10 witness: a non-ok key fetch and a rejected usage fetch over a
previously non-trivial state land exactly on the fallbacks. -/
theorem Console.failed_load_falls_back_witness :
    (∀ b, (Console.FetchOutcome.httpError :
        Console.FetchOutcome (Option (List Console.ApiKey))) ≠ .ok b)
    ∧ (∀ b, (Console.FetchOutcome.networkError :
        Console.FetchOutcome Console.UsageStats) ≠ .ok b)
    ∧ Console.applyLoadKeys "2026-10-12" ⟨[], some ⟨7, 8, 9⟩⟩ .httpError =
        ⟨Console.fallbackKeys "2026-10-12", some ⟨7, 8, 9⟩⟩
    ∧ Console.applyLoadStats ⟨[], some ⟨7, 8, 9⟩⟩ .networkError =
        ⟨[], some Console.zeroStats⟩ := by
  have h := Console.failed_load_falls_back "2026-10-12" ⟨[], some ⟨7, 8, 9⟩⟩
    .httpError .networkError (by simp) (by simp)
  exact ⟨by simp, by simp, h.1, h.2.1⟩
